import Mathlib

/-!
Verification of the DiceCrack job engine (`src/app.py`) against its
natural-language specification.

The Python source is shallowly embedded below.  Conventions:

* The external hash primitives `hashlib.sha256(...).hexdigest()` and
  `hmac.new(..., hashlib.sha512).hexdigest()` are library functions, not code
  of this repository; they are abstracted as function parameters
  `sha : String → String` and `hmacF : String → String → String`.
* Python `float` arithmetic on the telemetry fields is modelled with `ℚ`;
  wall-clock time (`time.time() - job['start_time']`) is abstracted as an
  oracle `elapsedAt : Nat → ℚ` giving the elapsed time observed at each
  loop iteration.
* Fallible operations (`int(s, 16)` parsing, UTF-8 decoding) return `Option`.
* Raw bytes are `Fin 256` values.
-/

namespace DiceCrack

/-- Value of a single hexadecimal digit character, as accepted by Python
`int(_, 16)`; `none` for a non-hex character. -/
def hexDigitVal? (c : Char) : Option Nat :=
  if '0' ≤ c ∧ c ≤ '9' then some (c.toNat - 48)
  else if 'a' ≤ c ∧ c ≤ 'f' then some (c.toNat - 87)
  else if 'A' ≤ c ∧ c ≤ 'F' then some (c.toNat - 55)
  else none

/-- Models Python `int(s, 16)` on a plain string of hex digits (the only shape
fed to it by `extract_roll_from_hmac`): `none` when the string is empty or
contains a non-hex character, mirroring the `ValueError` raised there. -/
def parseHexNat? (ds : List Char) : Option Nat :=
  if ds = [] then none
  else ds.foldl (fun acc c => acc.bind (fun a => (hexDigitVal? c).map (fun d => 16 * a + d))) (some 0)

/-- `true` when every character of the string is a hexadecimal digit
(the shape of every `hexdigest()` output). -/
def isHexStrB (s : String) : Bool :=
  s.data.all (fun c => (hexDigitVal? c).isSome)

/-- ASCII lower-casing of one character, as Python `str.lower()` acts on the
ASCII strings compared here (hex digests and the user-supplied target). -/
def pyLowerChar (c : Char) : Char :=
  if 'A' ≤ c ∧ c ≤ 'Z' then Char.ofNat (c.toNat + 32) else c

/-- Models Python `str.lower()` (character-wise; ASCII range). -/
def pyLower (s : String) : String := ⟨s.data.map pyLowerChar⟩

/-- The scanning loop of `extract_roll_from_hmac` (`src/app.py` lines 44-48):
`while roll >= 10000 and pos + 5 <= len(hmac_hex): roll = int(hmac_hex[pos:pos+5], 16); pos += 5`.
Having at least five characters left is expressed by the head pattern;
recursing on the tail models `pos += 5`.  `none` models the `ValueError`
`int` raises on a non-hex chunk. -/
def extract_loop : List Char → Nat → Option Nat
  | s, roll =>
    if 10000 ≤ roll then
      match s with
      | a :: b :: c :: d :: e :: rest =>
        match parseHexNat? [a, b, c, d, e] with
        | none => none
        | some v => extract_loop rest v
      | _ => some roll
    else some roll

/-- `extract_roll_from_hmac` (`src/app.py` lines 42-49): scan 5-hex-digit
chunks starting from sentinel roll `10001`, then return `(roll % 10000) / 100.0`. -/
def extract_roll_from_hmac (s : String) : Option ℚ :=
  (extract_loop s.data 10001).map (fun roll => ((roll % 10000 : Nat) : ℚ) / 100)

/-- `calculate_dice_roll` (`src/app.py` lines 51-54), with the HMAC-SHA512
primitive abstracted as `hmacF`: the key is `server_seed` and the message is
`f"{client_seed}:{nonce}"`. -/
def calculate_dice_roll (hmacF : String → String → String)
    (server_seed client_seed : String) (nonce : Int) : Option ℚ :=
  extract_roll_from_hmac (hmacF server_seed (client_seed ++ ":" ++ toString nonce))

/-- Total hex-digit value (defaulting to 0), used only by the spec-side
description of the scan below. -/
def hexVal (c : Char) : Nat := (hexDigitVal? c).getD 0

/-- Value of one full 5-character chunk. -/
def chunkVal (ds : List Char) : Nat := ds.foldl (fun a c => 16 * a + hexVal c) 0

/-- The values of all full (5-character) chunks of a string, in order. -/
def chunkValsT : List Char → List Nat
  | a :: b :: c :: d :: e :: rest => chunkVal [a, b, c, d, e] :: chunkValsT rest
  | _ => []

/-- Modelled from the spec (section 4.2 `extractOutcome`): the roll is "the
first chunk whose value is < 10000, or the last chunk read if every chunk is
≥ 10000 or input is exhausted"; `none` when no full chunk exists at all. -/
def spec_roll (s : List Char) : Option Nat :=
  match (chunkValsT s).find? (fun v => decide (v < 10000)) with
  | some v => some v
  | none => (chunkValsT s).getLast?

/- ### Lemmas about the hex scan -/

lemma parseHexNat?_foldl_some (ds : List Char)
    (h : ∀ c ∈ ds, (hexDigitVal? c).isSome = true) (a : Nat) :
    ds.foldl (fun acc c => acc.bind (fun a => (hexDigitVal? c).map (fun d => 16 * a + d)))
      (some a) = some (ds.foldl (fun a c => 16 * a + hexVal c) a) := by
  induction ds generalizing a with
  | nil => rfl
  | cons c ds ih =>
    have hc : (hexDigitVal? c).isSome = true := h c (List.mem_cons_self c ds)
    obtain ⟨d, hd⟩ := Option.isSome_iff_exists.mp hc
    have : hexVal c = d := by simp [hexVal, hd]
    simp only [List.foldl_cons, hd, Option.bind_some, Option.map_some', this]
    exact ih (fun x hx => h x (List.mem_cons_of_mem c hx)) _

lemma parseHexNat?_of_hex (ds : List Char) (hne : ds ≠ [])
    (h : ∀ c ∈ ds, (hexDigitVal? c).isSome = true) :
    parseHexNat? ds = some (chunkVal ds) := by
  unfold parseHexNat? chunkVal
  rw [if_neg hne]
  exact parseHexNat?_foldl_some ds h 0

/-- One unfolding of the scan on a string with at least one full chunk. -/
lemma extract_loop_cons5 (a b c d e : Char) (rest : List Char) (roll : Nat) :
    extract_loop (a :: b :: c :: d :: e :: rest) roll =
      if 10000 ≤ roll then
        match parseHexNat? [a, b, c, d, e] with
        | none => none
        | some v => extract_loop rest v
      else some roll := rfl

/-- The scan stops as soon as the current roll is below 10000. -/
lemma extract_loop_stop (s : List Char) (roll : Nat) (h : roll < 10000) :
    extract_loop s roll = some roll := by
  rcases s with _ | ⟨a, _ | ⟨b, _ | ⟨c, _ | ⟨d, _ | ⟨e, rest⟩⟩⟩⟩⟩
  · rw [extract_loop.eq_def]; split <;> split <;> rfl
  · rw [extract_loop.eq_def]; split <;> split <;> rfl
  · rw [extract_loop.eq_def]; split <;> split <;> rfl
  · rw [extract_loop.eq_def]; split <;> split <;> rfl
  · rw [extract_loop.eq_def]; split <;> split <;> rfl
  · rw [extract_loop_cons5, if_neg (by omega)]

/-- The scan returns the incoming roll untouched when fewer than five
characters remain. -/
lemma extract_loop_short (s : List Char) (h : s.length < 5) (roll : Nat) :
    extract_loop s roll = some roll := by
  rcases s with _ | ⟨a, _ | ⟨b, _ | ⟨c, _ | ⟨d, _ | ⟨e, rest⟩⟩⟩⟩⟩
  · rw [extract_loop.eq_def]; split <;> split <;> rfl
  · rw [extract_loop.eq_def]; split <;> split <;> rfl
  · rw [extract_loop.eq_def]; split <;> split <;> rfl
  · rw [extract_loop.eq_def]; split <;> split <;> rfl
  · rw [extract_loop.eq_def]; split <;> split <;> rfl
  · simp at h; omega

/-- The scanning loop realises the spec's description: its result is the first
chunk value below 10000, or the last chunk value, or the incoming roll when no
full chunk exists. -/
lemma extract_loop_eq_spec (s : List Char)
    (hhex : ∀ c ∈ s, (hexDigitVal? c).isSome = true) (roll : Nat)
    (hroll : 10000 ≤ roll) :
    extract_loop s roll =
      some (match (chunkValsT s).find? (fun v => decide (v < 10000)) with
        | some v => v
        | none => (chunkValsT s).getLastD roll) := by
  induction s using chunkValsT.induct generalizing roll with
  | case1 a b c d e rest ih =>
    have hmem : ∀ x ∈ [a, b, c, d, e], (hexDigitVal? x).isSome = true := by
      intro x hx
      apply hhex
      simp only [List.mem_cons, List.not_mem_nil, or_false] at hx
      rcases hx with h | h | h | h | h <;> subst h <;> simp
    have hrest : ∀ x ∈ rest, (hexDigitVal? x).isSome = true := by
      intro x hx
      exact hhex x (by simp [hx])
    rw [extract_loop_cons5, if_pos hroll]
    rw [parseHexNat?_of_hex [a, b, c, d, e] (by simp) hmem]
    show extract_loop rest (chunkVal [a, b, c, d, e]) = _
    rw [chunkValsT]
    by_cases hv : chunkVal [a, b, c, d, e] < 10000
    · rw [extract_loop_stop _ _ hv]
      rw [List.find?_cons_of_pos _ (by simp [hv])]
    · rw [ih hrest _ (by omega)]
      rw [List.find?_cons_of_neg _ (by simp [hv]), List.getLastD_cons]
  | case2 s h =>
    rcases s with _ | ⟨a, _ | ⟨b, _ | ⟨c, _ | ⟨d, _ | ⟨e, rest⟩⟩⟩⟩⟩
    · rw [extract_loop.eq_def]; split <;> split <;> rfl
    · rw [extract_loop.eq_def]; split <;> split <;> rfl
    · rw [extract_loop.eq_def]; split <;> split <;> rfl
    · rw [extract_loop.eq_def]; split <;> split <;> rfl
    · rw [extract_loop.eq_def]; split <;> split <;> rfl
    · exact (h a b c d e rest rfl).elim

lemma chunkValsT_ne_nil (l : List Char) (h : 5 ≤ l.length) : chunkValsT l ≠ [] := by
  rcases l with _ | ⟨a, _ | ⟨b, _ | ⟨c, _ | ⟨d, _ | ⟨e, rest⟩⟩⟩⟩⟩ <;>
    simp_all [chunkValsT]

lemma roll_outcome_range (roll : Nat) :
    (0 : ℚ) ≤ ((roll % 10000 : Nat) : ℚ) / 100 ∧ ((roll % 10000 : Nat) : ℚ) / 100 < 100 := by
  constructor
  · positivity
  · rw [div_lt_iff₀ (by norm_num)]
    have : roll % 10000 < 10000 := Nat.mod_lt _ (by norm_num)
    calc ((roll % 10000 : Nat) : ℚ) < (10000 : ℚ) := by exact_mod_cast this
    _ = 100 * 100 := by norm_num

/-- C1: for every hex input string, `extract_roll_from_hmac` returns
`(roll % 10000) / 100`, a value in `[0, 100)`, where — whenever at least one
full 5-hex-character chunk exists — `roll` is the first chunk value below
10000, or the last chunk read when every chunk is ≥ 10000 or the input is
exhausted (the `spec_roll` description of the scan). -/
theorem C1_extract_outcome (s : String) (hhex : isHexStrB s = true) :
    (∃ q : ℚ, extract_roll_from_hmac s = some q ∧ 0 ≤ q ∧ q < 100) ∧
    (5 ≤ s.length → ∃ roll : Nat, spec_roll s.data = some roll ∧
      extract_roll_from_hmac s = some (((roll % 10000 : Nat) : ℚ) / 100)) := by
  have hall : ∀ c ∈ s.data, (hexDigitVal? c).isSome = true := by
    simpa [isHexStrB, List.all_eq_true] using hhex
  have hmain := extract_loop_eq_spec s.data hall 10001 (by norm_num)
  have hlen : s.length = s.data.length := rfl
  rcases hfind : (chunkValsT s.data).find? (fun v => decide (v < 10000)) with _ | v
  · have hloop : extract_loop s.data 10001 = some ((chunkValsT s.data).getLastD 10001) := by
      rw [hmain, hfind]
    have hout : extract_roll_from_hmac s =
        some ((((chunkValsT s.data).getLastD 10001 % 10000 : Nat) : ℚ) / 100) := by
      unfold extract_roll_from_hmac
      rw [hloop, Option.map_some']
    refine ⟨⟨_, hout, (roll_outcome_range _).1, (roll_outcome_range _).2⟩, ?_⟩
    intro h5
    have hne := chunkValsT_ne_nil s.data (by omega)
    obtain ⟨x, hx⟩ := Option.isSome_iff_exists.mp (List.getLast?_isSome.mpr hne)
    have hgl : (chunkValsT s.data).getLastD 10001 = x := by
      rw [List.getLastD_eq_getLast?, hx]
      rfl
    refine ⟨x, ?_, ?_⟩
    · unfold spec_roll
      rw [hfind, hx]
    · rw [hout, hgl]
  · have hloop : extract_loop s.data 10001 = some v := by
      rw [hmain, hfind]
    have hout : extract_roll_from_hmac s = some (((v % 10000 : Nat) : ℚ) / 100) := by
      unfold extract_roll_from_hmac
      rw [hloop, Option.map_some']
    refine ⟨⟨_, hout, (roll_outcome_range _).1, (roll_outcome_range _).2⟩, ?_⟩
    intro h5
    refine ⟨v, ?_, hout⟩
    unfold spec_roll
    rw [hfind]

/-- Witness for C1 at the concrete digest string "fffff00042": the first chunk
fffff is ≥ 10000, the second chunk 00042 = 66 is the roll. -/
theorem C1_extract_outcome_witness :
    isHexStrB "fffff00042" = true ∧
    (∃ roll : Nat, spec_roll "fffff00042".data = some roll ∧
      extract_roll_from_hmac "fffff00042" = some (((roll % 10000 : Nat) : ℚ) / 100)) :=
  ⟨by decide, (C1_extract_outcome "fffff00042" (by decide)).2 (by decide)⟩

/-- C10: for every input string shorter than 5 characters,
`extract_roll_from_hmac` reads no chunk at all and returns
(10001 % 10000) / 100 = 0.01 without error. -/
theorem C10_short_input (s : String) (h : s.length < 5) :
    extract_roll_from_hmac s = some ((1 : ℚ) / 100) := by
  unfold extract_roll_from_hmac
  rw [extract_loop_short s.data (by exact h) 10001, Option.map_some']
  norm_num

/-- Witness for C10 at the concrete (non-hex) input "zz!". -/
theorem C10_short_input_witness :
    ("zz!" : String).length < 5 ∧ extract_roll_from_hmac "zz!" = some ((1 : ℚ) / 100) :=
  ⟨by decide, C10_short_input "zz!" (by decide)⟩

/-! ### The job state and the worker loop -/

/-- Job status strings used in `src/app.py` (`'queued'`, `'running'`,
`'paused'`, `'completed'`, `'finished_no_match'`). -/
inductive Status where
  | queued
  | running
  | paused
  | completed
  | finished_no_match
deriving DecidableEq

/-- One job's mutable state (the `jobs[job_id]` dict, lines 219-231).
The `start_time` wall-clock field is abstracted: the worker model receives the
elapsed time `time.time() - job['start_time']` of each iteration through an
oracle `elapsedAt`.  The `lock` field carries no data.  `match` is a reserved
word in Lean, hence the field name `match_val` (dict key `'match'`). -/
structure Job where
  processed : Nat
  total : Nat
  done : Bool
  paused : Bool
  speed_per_min : ℚ
  eta_seconds : Option Int
  match_val : Option String
  roll : Option ℚ
  status : Status
deriving DecidableEq

/-- Python `int(x)` on a float: truncation toward zero. -/
def pyInt (q : ℚ) : Int := if 0 ≤ q then ⌊q⌋ else ⌈q⌉

/-- The per-iteration telemetry updates of `process_job`
(`src/app.py` lines 141-154): set `processed = idx`; if `elapsed > 0` set
`speed_per_min = (processed / elapsed) * 60.0`; if `speed_per_min > 0` set
`eta_seconds = int(((total - processed) / speed_per_min) * 60)` else `None`. -/
def iter_update (total : Nat) (elapsed : ℚ) (idx : Nat) (j : Job) : Job :=
  let j2 := if 0 < elapsed then
      { j with processed := idx, speed_per_min := ((idx : ℚ) / elapsed) * 60 }
    else { j with processed := idx }
  if 0 < j2.speed_per_min then
    { j2 with eta_seconds := some (pyInt ((((total : ℚ) - (idx : ℚ)) / j2.speed_per_min) * 60)) }
  else { j2 with eta_seconds := none }

/-- The terminal updates after the loop exhausts the word list without a match
(`src/app.py` lines 172-177). -/
def finish_no_match (j : Job) : Job :=
  { j with done := true, status := Status.finished_no_match,
           match_val := none, roll := none, eta_seconds := some 0 }

/-- The candidate loop of `process_job` (`src/app.py` lines 126-177), iterating
with `enumerate(wordlist_lines, start=1)`.  Returns the list of job states
observable after each iteration (the snapshot trace) together with the final
job state; the final state is `none` when an exception escapes the thread
(only possible if the abstract HMAC produced a non-hex digest).  The pause
check (lines 127-132) mutates no job field and is modelled separately as the
`pauseWaitStep` transition system; the throttle sleep (lines 166-170) mutates
no job field either. -/
def process_go (sha : String → String) (hmacF : String → String → String)
    (target_hash client_seed : String) (nonce : Int) (total : Nat)
    (elapsedAt : Nat → ℚ) : List String → Nat → Job → List Job × Option Job
  | [], _idx, j =>
    let jf := finish_no_match j
    ([jf], some jf)
  | seed :: rest, idx, j =>
    let hashed_candidate := sha seed
    let j3 := iter_update total (elapsedAt idx) idx j
    if pyLower hashed_candidate = pyLower target_hash then
      match calculate_dice_roll hmacF seed client_seed nonce with
      | some r =>
        let jf := { j3 with match_val := some seed, roll := some r,
                            done := true, status := Status.completed }
        ([j3, jf], some jf)
      | none => ([j3], none)
    else
      let p := process_go sha hmacF target_hash client_seed nonce total elapsedAt
        rest (idx + 1) j3
      (j3 :: p.1, p.2)

/-- `process_job` (`src/app.py` lines 111-177): the field initialisation of
lines 113-121 (which touches neither `status` nor `paused`), followed by the
candidate loop.  `max_speed` only controls the throttle sleep and affects no
job field, so it is not a parameter of the model. -/
def process_job (sha : String → String) (hmacF : String → String → String)
    (target_hash client_seed : String) (nonce : Int) (wordlist_lines : List String)
    (elapsedAt : Nat → ℚ) (j : Job) : List Job × Option Job :=
  let j0 := { j with total := wordlist_lines.length, processed := 0, done := false,
                     match_val := none, roll := none, speed_per_min := 0,
                     eta_seconds := none }
  let p := process_go sha hmacF target_hash client_seed nonce wordlist_lines.length
    elapsedAt wordlist_lines 1 j0
  (j0 :: p.1, p.2)

/-- The job-state effect of the `pause_job` route (`src/app.py` lines 262-264):
unconditionally sets the pause flag and the status. -/
def pause_job_update (j : Job) : Job :=
  { j with paused := true, status := Status.paused }

/-- The job-state effect of the `resume_job` route (`src/app.py` lines
272-274): unconditionally clears the pause flag and sets the status. -/
def resume_job_update (j : Job) : Job :=
  { j with paused := false, status := Status.running }

/-- The fresh job stored by `start_process` (`src/app.py` lines 219-231). -/
def initial_job (total : Nat) : Job :=
  { processed := 0, total := total, done := false, paused := false,
    speed_per_min := 0, eta_seconds := none, match_val := none, roll := none,
    status := Status.queued }

/-- A concrete stand-in for the abstract one-way hash, used in witnesses. -/
def cSha : String → String := fun s => s

/-- A concrete stand-in for the abstract keyed hash, used in witnesses:
always the hex digest "00000". -/
def cHmac : String → String → String := fun _ _ => "00000"

/-- A concrete elapsed-time oracle (the clock never advances). -/
def zeroEl : Nat → ℚ := fun _ => 0

/- ### Field behaviour of one iteration's telemetry updates -/

lemma iter_update_processed (total : Nat) (e : ℚ) (idx : Nat) (j : Job) :
    (iter_update total e idx j).processed = idx := by
  simp only [iter_update]
  split_ifs <;> rfl

lemma iter_update_status (total : Nat) (e : ℚ) (idx : Nat) (j : Job) :
    (iter_update total e idx j).status = j.status := by
  simp only [iter_update]
  split_ifs <;> rfl

lemma iter_update_total (total : Nat) (e : ℚ) (idx : Nat) (j : Job) :
    (iter_update total e idx j).total = j.total := by
  simp only [iter_update]
  split_ifs <;> rfl

lemma iter_update_done (total : Nat) (e : ℚ) (idx : Nat) (j : Job) :
    (iter_update total e idx j).done = j.done := by
  simp only [iter_update]
  split_ifs <;> rfl

lemma iter_update_match_val (total : Nat) (e : ℚ) (idx : Nat) (j : Job) :
    (iter_update total e idx j).match_val = j.match_val := by
  simp only [iter_update]
  split_ifs <;> rfl

/- ### The no-match path (C3) -/

lemma process_go_no_match (sha : String → String) (hmacF : String → String → String)
    (target client_seed : String) (nonce : Int) (total : Nat) (elapsedAt : Nat → ℚ)
    (words : List String) :
    ∀ (idx : Nat) (j : Job),
      (∀ w ∈ words, pyLower (sha w) ≠ pyLower target) →
      ∃ j', (process_go sha hmacF target client_seed nonce total elapsedAt words idx j).2
        = some (finish_no_match j') := by
  induction words with
  | nil => exact fun idx j _ => ⟨j, rfl⟩
  | cons seed rest ih =>
    intro idx j h
    have hne : ¬(pyLower (sha seed) = pyLower target) := h seed (by simp)
    simp only [process_go, if_neg hne]
    exact ih (idx + 1) _ (fun w hw => h w (by simp [hw]))

/-- C3: for every candidate list containing no pre-image of the target digest,
the worker terminates with status finished_no_match, no match, no roll,
done set, and eta_seconds = 0. -/
theorem C3_no_match (sha : String → String) (hmacF : String → String → String)
    (target client_seed : String) (nonce : Int) (words : List String)
    (elapsedAt : Nat → ℚ) (j : Job)
    (hnone : words.all (fun w => !(pyLower (sha w) == pyLower target)) = true) :
    ∃ jf, (process_job sha hmacF target client_seed nonce words elapsedAt j).2 = some jf ∧
      jf.status = Status.finished_no_match ∧ jf.match_val = none ∧ jf.roll = none ∧
      jf.done = true ∧ jf.eta_seconds = some 0 := by
  have h : ∀ w ∈ words, pyLower (sha w) ≠ pyLower target := by
    intro w hw
    have := List.all_eq_true.mp hnone w hw
    simpa using this
  obtain ⟨j', hj⟩ := process_go_no_match sha hmacF target client_seed nonce
    words.length elapsedAt words 1
    { j with total := words.length, processed := 0, done := false, match_val := none,
             roll := none, speed_per_min := 0, eta_seconds := none } h
  exact ⟨finish_no_match j', hj, rfl, rfl, rfl, rfl, rfl⟩

/-- Witness for C3: identity hash, no candidate equals the target "z". -/
theorem C3_no_match_witness :
    ∃ jf, (process_job cSha cHmac "z" "cs" 7 ["a", "b"] zeroEl (initial_job 2)).2 = some jf ∧
      jf.status = Status.finished_no_match ∧ jf.match_val = none ∧ jf.roll = none ∧
      jf.done = true ∧ jf.eta_seconds = some 0 :=
  C3_no_match cSha cHmac "z" "cs" 7 ["a", "b"] zeroEl (initial_job 2) (by decide)

/- ### The first-match path (C2) -/

lemma extract_loop_isSome_of_hex (s : List Char)
    (h : ∀ c ∈ s, (hexDigitVal? c).isSome = true) (roll : Nat) :
    (extract_loop s roll).isSome = true := by
  by_cases hr : 10000 ≤ roll
  · rw [extract_loop_eq_spec s h roll hr]
    rfl
  · rw [extract_loop_stop s roll (by omega)]
    rfl

lemma extract_roll_isSome_of_hex (s : String) (hhex : isHexStrB s = true) :
    (extract_roll_from_hmac s).isSome = true := by
  have hall : ∀ c ∈ s.data, (hexDigitVal? c).isSome = true := by
    simpa [isHexStrB, List.all_eq_true] using hhex
  unfold extract_roll_from_hmac
  rw [Option.isSome_map']
  exact extract_loop_isSome_of_hex s.data hall 10001

lemma process_go_first_match (sha : String → String) (hmacF : String → String → String)
    (target client_seed : String) (nonce : Int) (total : Nat) (elapsedAt : Nat → ℚ)
    (words : List String) :
    ∀ (k idx : Nat) (j : Job) (c : String),
      words[k]? = some c →
      pyLower (sha c) = pyLower target →
      (∀ w ∈ words.take k, pyLower (sha w) ≠ pyLower target) →
      isHexStrB (hmacF c (client_seed ++ ":" ++ toString nonce)) = true →
      ∃ jf, (process_go sha hmacF target client_seed nonce total elapsedAt words idx j).2
          = some jf ∧
        jf.match_val = some c ∧
        jf.roll = extract_roll_from_hmac (hmacF c (client_seed ++ ":" ++ toString nonce)) ∧
        jf.roll.isSome = true ∧ jf.done = true ∧ jf.status = Status.completed ∧
        jf.processed = idx + k := by
  induction words with
  | nil => intro k idx j c hk; simp at hk
  | cons seed rest ih =>
    intro k idx j c hk hc hprev hhex
    match k with
    | 0 =>
      have hcs : seed = c := by simpa using hk
      subst hcs
      have hmatch : pyLower (sha seed) = pyLower target := hc
      have hsome := extract_roll_isSome_of_hex _ hhex
      obtain ⟨r, hr⟩ := Option.isSome_iff_exists.mp hsome
      simp only [process_go, if_pos hmatch]
      have hcalc : calculate_dice_roll hmacF seed client_seed nonce = some r := hr
      rw [hcalc]
      refine ⟨_, rfl, rfl, ?_, ?_, rfl, rfl, ?_⟩
      · show some r = _
        rw [hr]
      · rfl
      · show (iter_update total (elapsedAt idx) idx j).processed = idx + 0
        rw [iter_update_processed]
        omega
    | k + 1 =>
      have hks : rest[k]? = some c := by simpa using hk
      have hne : ¬(pyLower (sha seed) = pyLower target) := by
        apply hprev seed
        simp [List.take_cons]
      have hprev' : ∀ w ∈ rest.take k, pyLower (sha w) ≠ pyLower target := by
        intro w hw
        exact hprev w (by simp [List.take_cons, hw])
      simp only [process_go, if_neg hne]
      obtain ⟨jf, h1, h2, h3, h4, h5, h6, h7⟩ :=
        ih k (idx + 1) (iter_update total (elapsedAt idx) idx j) c hks hc hprev' hhex
      exact ⟨jf, h1, h2, h3, h4, h5, h6, by omega⟩

/-- C2: for every candidate list containing a pre-image of the target digest
(compared case-insensitively), the worker stops at the first such candidate
(index k, so exactly k+1 candidates are processed), records it as the match,
sets the roll to `extract_roll_from_hmac` of the keyed digest keyed by the
candidate over the message `clientSeed:nonce`, and sets status completed. -/
theorem C2_first_match (sha : String → String) (hmacF : String → String → String)
    (target client_seed : String) (nonce : Int) (words : List String)
    (elapsedAt : Nat → ℚ) (j : Job) (k : Nat) (c : String)
    (hk : words[k]? = some c)
    (hc : pyLower (sha c) = pyLower target)
    (hprev : (words.take k).all (fun w => !(pyLower (sha w) == pyLower target)) = true)
    (hhex : isHexStrB (hmacF c (client_seed ++ ":" ++ toString nonce)) = true) :
    ∃ jf, (process_job sha hmacF target client_seed nonce words elapsedAt j).2 = some jf ∧
      jf.match_val = some c ∧
      jf.roll = extract_roll_from_hmac (hmacF c (client_seed ++ ":" ++ toString nonce)) ∧
      jf.roll.isSome = true ∧ jf.done = true ∧ jf.status = Status.completed ∧
      jf.processed = k + 1 := by
  have hprev' : ∀ w ∈ words.take k, pyLower (sha w) ≠ pyLower target := by
    intro w hw
    have := List.all_eq_true.mp hprev w hw
    simpa using this
  obtain ⟨jf, h1, h2, h3, h4, h5, h6, h7⟩ := process_go_first_match sha hmacF target
    client_seed nonce words.length elapsedAt words k 1
    { j with total := words.length, processed := 0, done := false, match_val := none,
             roll := none, speed_per_min := 0, eta_seconds := none } c hk hc hprev' hhex
  exact ⟨jf, h1, h2, h3, h4, h5, h6, by omega⟩

/-- Witness for C2: the target "a" is matched by the second candidate. -/
theorem C2_first_match_witness :
    ∃ jf, (process_job cSha cHmac "a" "cs" 7 ["b", "a", "x"] zeroEl (initial_job 3)).2
        = some jf ∧
      jf.match_val = some "a" ∧
      jf.roll = extract_roll_from_hmac (cHmac "a" ("cs" ++ ":" ++ toString (7 : Int))) ∧
      jf.roll.isSome = true ∧ jf.done = true ∧ jf.status = Status.completed ∧
      jf.processed = 1 + 1 :=
  C2_first_match cSha cHmac "a" "cs" 7 ["b", "a", "x"] zeroEl (initial_job 3) 1 "a"
    (by decide) (by decide) (by decide) (by decide)

/- ### Status and progress discipline of the worker trace (C4, C9) -/

lemma process_go_trace_status (sha : String → String) (hmacF : String → String → String)
    (target client_seed : String) (nonce : Int) (total : Nat) (elapsedAt : Nat → ℚ)
    (words : List String) :
    ∀ (idx : Nat) (j : Job),
      ∀ s ∈ (process_go sha hmacF target client_seed nonce total elapsedAt words idx j).1,
        s.status = j.status ∨ s.status = Status.completed ∨
          s.status = Status.finished_no_match := by
  induction words with
  | nil =>
    intro idx j s hs
    simp only [process_go, List.mem_singleton] at hs
    subst hs
    exact Or.inr (Or.inr rfl)
  | cons seed rest ih =>
    intro idx j s hs
    by_cases hcond : pyLower (sha seed) = pyLower target
    · simp only [process_go, if_pos hcond] at hs
      rcases hcalc : calculate_dice_roll hmacF seed client_seed nonce with _ | r <;>
        rw [hcalc] at hs
      · simp only [List.mem_singleton] at hs
        subst hs
        exact Or.inl (iter_update_status total (elapsedAt idx) idx j)
      · simp only [List.mem_cons, List.mem_singleton, List.not_mem_nil, or_false] at hs
        rcases hs with hs | hs <;> subst hs
        · exact Or.inl (iter_update_status total (elapsedAt idx) idx j)
        · exact Or.inr (Or.inl rfl)
    · simp only [process_go, if_neg hcond, List.mem_cons] at hs
      rcases hs with hs | hs
      · subst hs
        exact Or.inl (iter_update_status total (elapsedAt idx) idx j)
      · rcases ih (idx + 1) (iter_update total (elapsedAt idx) idx j) s hs with h | h | h
        · rw [iter_update_status] at h
          exact Or.inl h
        · exact Or.inr (Or.inl h)
        · exact Or.inr (Or.inr h)

lemma process_go_final_status (sha : String → String) (hmacF : String → String → String)
    (target client_seed : String) (nonce : Int) (total : Nat) (elapsedAt : Nat → ℚ)
    (words : List String) :
    ∀ (idx : Nat) (j : Job) (jf : Job),
      (process_go sha hmacF target client_seed nonce total elapsedAt words idx j).2 = some jf →
      (jf.status = Status.completed ∧ jf.match_val.isSome = true) ∨
      (jf.status = Status.finished_no_match ∧ jf.match_val = none) := by
  induction words with
  | nil =>
    intro idx j jf hjf
    simp only [process_go] at hjf
    obtain rfl := Option.some_injective _ hjf.symm
    exact Or.inr ⟨rfl, rfl⟩
  | cons seed rest ih =>
    intro idx j jf hjf
    by_cases hcond : pyLower (sha seed) = pyLower target
    · simp only [process_go, if_pos hcond] at hjf
      rcases hcalc : calculate_dice_roll hmacF seed client_seed nonce with _ | r <;>
        rw [hcalc] at hjf
      · simp at hjf
      · obtain rfl := Option.some_injective _ hjf.symm
        exact Or.inl ⟨rfl, rfl⟩
    · simp only [process_go, if_neg hcond] at hjf
      exact ih (idx + 1) _ jf hjf

lemma process_go_trace_chain (sha : String → String) (hmacF : String → String → String)
    (target client_seed : String) (nonce : Int) (total : Nat) (elapsedAt : Nat → ℚ)
    (words : List String) :
    ∀ (idx : Nat) (j : Job), j.processed ≤ idx →
      List.Chain' (fun a b => a.processed ≤ b.processed)
        (j :: (process_go sha hmacF target client_seed nonce total elapsedAt words idx j).1) := by
  induction words with
  | nil =>
    intro idx j _
    simp only [process_go]
    exact List.chain'_cons.mpr ⟨le_of_eq rfl, List.chain'_singleton _⟩
  | cons seed rest ih =>
    intro idx j h
    have hj3 : (iter_update total (elapsedAt idx) idx j).processed = idx :=
      iter_update_processed total (elapsedAt idx) idx j
    by_cases hcond : pyLower (sha seed) = pyLower target
    · simp only [process_go, if_pos hcond]
      rcases hcalc : calculate_dice_roll hmacF seed client_seed nonce with _ | r
      · exact List.chain'_cons.mpr ⟨by omega, List.chain'_singleton _⟩
      · refine List.chain'_cons.mpr ⟨by omega, List.chain'_cons.mpr ⟨le_refl _, ?_⟩⟩
        exact List.chain'_singleton _
    · simp only [process_go, if_neg hcond]
      refine List.chain'_cons.mpr ⟨by omega, ?_⟩
      exact ih (idx + 1) _ (by omega)

lemma process_go_trace_bound (sha : String → String) (hmacF : String → String → String)
    (target client_seed : String) (nonce : Int) (total : Nat) (elapsedAt : Nat → ℚ)
    (words : List String) :
    ∀ (idx : Nat) (j : Job), j.total = total → idx + words.length = total + 1 →
      j.processed ≤ total →
      ∀ s ∈ (process_go sha hmacF target client_seed nonce total elapsedAt words idx j).1,
        s.total = total ∧ s.processed ≤ total := by
  induction words with
  | nil =>
    intro idx j hjt _ hjp s hs
    simp only [process_go, List.mem_singleton] at hs
    subst hs
    exact ⟨hjt, hjp⟩
  | cons seed rest ih =>
    intro idx j hjt hlen hjp s hs
    have hidx : idx ≤ total := by
      simp only [List.length_cons] at hlen
      omega
    have hj3p : (iter_update total (elapsedAt idx) idx j).processed = idx :=
      iter_update_processed total (elapsedAt idx) idx j
    have hj3t : (iter_update total (elapsedAt idx) idx j).total = total := by
      rw [iter_update_total]
      exact hjt
    by_cases hcond : pyLower (sha seed) = pyLower target
    · simp only [process_go, if_pos hcond] at hs
      rcases hcalc : calculate_dice_roll hmacF seed client_seed nonce with _ | r <;>
        rw [hcalc] at hs
      · simp only [List.mem_singleton] at hs
        subst hs
        exact ⟨hj3t, by omega⟩
      · simp only [List.mem_cons, List.mem_singleton, List.not_mem_nil, or_false] at hs
        rcases hs with hs | hs <;> subst hs
        · exact ⟨hj3t, by omega⟩
        · refine ⟨hj3t, ?_⟩
          show (iter_update total (elapsedAt idx) idx j).processed ≤ total
          omega
    · simp only [process_go, if_neg hcond, List.mem_cons] at hs
      rcases hs with hs | hs
      · subst hs
        exact ⟨hj3t, by omega⟩
      · refine ih (idx + 1) _ hj3t ?_ (by omega) s hs
        simp only [List.length_cons] at hlen
        omega

/-- C9: along any worker run, every observable snapshot state has
`processed ≤ total` with `total` fixed at the word-list length, `processed`
is monotonically non-decreasing along the trace, and the pause/resume
operations never change `processed`. -/
theorem C9_progress (sha : String → String) (hmacF : String → String → String)
    (target client_seed : String) (nonce : Int) (words : List String)
    (elapsedAt : Nat → ℚ) (j : Job) :
    (∀ s ∈ (process_job sha hmacF target client_seed nonce words elapsedAt j).1,
      s.total = words.length ∧ s.processed ≤ s.total) ∧
    List.Pairwise (fun a b => a.processed ≤ b.processed)
      (process_job sha hmacF target client_seed nonce words elapsedAt j).1 ∧
    (∀ j' : Job, (pause_job_update j').processed = j'.processed ∧
      (resume_job_update j').processed = j'.processed) := by
  refine ⟨?_, ?_, fun j' => ⟨rfl, rfl⟩⟩
  · intro s hs
    simp only [process_job, List.mem_cons] at hs
    rcases hs with hs | hs
    · subst hs
      exact ⟨rfl, by simp⟩
    · obtain ⟨h1, h2⟩ := process_go_trace_bound sha hmacF target client_seed nonce
        words.length elapsedAt words 1 _ rfl (by omega) (by simp) s hs
      exact ⟨h1, by omega⟩
  · haveI : IsTrans Job (fun a b => a.processed ≤ b.processed) :=
      ⟨fun a b c h1 h2 => le_trans h1 h2⟩
    refine List.chain'_iff_pairwise.mp ?_
    exact process_go_trace_chain sha hmacF target client_seed nonce words.length
      elapsedAt words 1 _ (by simp)

/-- Witness for C9 at a concrete two-candidate no-match run. -/
theorem C9_progress_witness :
    (initial_job 2).total = 2 ∧ (initial_job 2).processed ≤ (initial_job 2).total ∧
    List.Pairwise (fun a b => a.processed ≤ b.processed)
      (process_job cSha cHmac "z" "cs" 0 ["a", "b"] zeroEl (initial_job 2)).1 :=
  have h := C9_progress cSha cHmac "z" "cs" 0 ["a", "b"] zeroEl (initial_job 2)
  ⟨(h.1 (initial_job 2) (by decide)).1, (h.1 (initial_job 2) (by decide)).2, h.2.1⟩

/-- The final job state of the one-candidate matching run used in the C4
counterexample and witness. -/
def c4jf : Job :=
  { processed := 1, total := 1, done := true, paused := false, speed_per_min := 0,
    eta_seconds := none, match_val := some "a",
    roll := some (((0 % 10000 : Nat) : ℚ) / 100),
    status := Status.completed }

/-- Counterexample to C4 as stated: the worker reaches the terminal status
completed, yet a later pause operation changes the status to paused and a
later resume operation changes it to running; and on a no-match run the trace
statuses stay queued while iterating — the worker never sets status running
when it starts. -/
theorem C4_counterexample :
    (process_job cSha cHmac "a" "cs" 0 ["a"] zeroEl (initial_job 1)).2 = some c4jf ∧
    c4jf.status = Status.completed ∧
    (pause_job_update c4jf).status = Status.paused ∧
    (resume_job_update c4jf).status = Status.running ∧
    ((process_job cSha cHmac "q" "cs" 0 ["a"] zeroEl (initial_job 1)).1.map Job.status
      = [Status.queued, Status.queued, Status.finished_no_match]) :=
  ⟨rfl, rfl, rfl, rfl, rfl⟩

/-- C4 amended: pause always sets status paused and resume always sets status
running, regardless of the current status (including terminal ones); the
worker itself never sets status running — along its trace the status stays
the initial one until the single terminal write, and the final status is
completed exactly when a match was recorded, finished_no_match with no match
otherwise. -/
theorem C4_status_discipline (sha : String → String) (hmacF : String → String → String)
    (target client_seed : String) (nonce : Int) (words : List String)
    (elapsedAt : Nat → ℚ) (j : Job) :
    (∀ j' : Job, (pause_job_update j').status = Status.paused) ∧
    (∀ j' : Job, (resume_job_update j').status = Status.running) ∧
    (∀ s ∈ (process_job sha hmacF target client_seed nonce words elapsedAt j).1,
      s.status = j.status ∨ s.status = Status.completed ∨
        s.status = Status.finished_no_match) ∧
    (∀ jf, (process_job sha hmacF target client_seed nonce words elapsedAt j).2 = some jf →
      (jf.status = Status.completed ∧ jf.match_val.isSome = true) ∨
      (jf.status = Status.finished_no_match ∧ jf.match_val = none)) := by
  refine ⟨fun j' => rfl, fun j' => rfl, ?_, ?_⟩
  · intro s hs
    simp only [process_job, List.mem_cons] at hs
    rcases hs with hs | hs
    · subst hs
      exact Or.inl rfl
    · have h := process_go_trace_status sha hmacF target client_seed nonce words.length
        elapsedAt words 1
        { j with total := words.length, processed := 0, done := false, match_val := none,
                 roll := none, speed_per_min := 0, eta_seconds := none } s hs
      exact h
  · intro jf hjf
    exact process_go_final_status sha hmacF target client_seed nonce words.length
      elapsedAt words 1 _ jf hjf

/-- Witness for the amended C4 at a concrete matching run. -/
theorem C4_status_discipline_witness :
    (process_job cSha cHmac "a" "cs" 0 ["a"] zeroEl (initial_job 1)).2 = some c4jf ∧
    ((c4jf.status = Status.completed ∧ c4jf.match_val.isSome = true) ∨
     (c4jf.status = Status.finished_no_match ∧ c4jf.match_val = none)) :=
  ⟨rfl,
    (C4_status_discipline cSha cHmac "a" "cs" 0 ["a"] zeroEl (initial_job 1)).2.2.2
      c4jf rfl⟩

/-! ### The pause wait loop and the resume handler (C5)

The worker's pause check (`src/app.py` lines 127-132) is

    with job['lock']:
        if job['paused']:
            while job['paused']:
                time.sleep(0.5)

so the sleep/recheck loop runs while the worker still holds `job['lock']`.
The `pause_job` and `resume_job` handlers (lines 262-264, 272-274) mutate
`job['paused']` inside `with job['lock']`, so they can only run while the
worker does not hold the lock.  The interleaving of these lock-mediated steps
is modelled as a small transition system. -/

/-- Shared state relevant to the pause machinery of one job: the
`job['paused']` flag, whether the worker thread currently holds `job['lock']`,
and whether a pending resume request has completed. -/
structure PauseWaitState where
  paused : Bool
  workerHasLock : Bool
  resumed : Bool
deriving DecidableEq

/-- Interleaved small steps of the worker's pause check and of the
pause/resume handlers, each enabled only as the locking in the source
allows. -/
inductive pauseWaitStep : PauseWaitState → PauseWaitState → Prop where
  | workerAcquire (s : PauseWaitState) : s.workerHasLock = false →
      pauseWaitStep s { s with workerHasLock := true }
  | workerRecheck (s : PauseWaitState) : s.workerHasLock = true → s.paused = true →
      pauseWaitStep s s
  | workerRelease (s : PauseWaitState) : s.workerHasLock = true → s.paused = false →
      pauseWaitStep s { s with workerHasLock := false }
  | resumeOp (s : PauseWaitState) : s.workerHasLock = false →
      pauseWaitStep s { s with paused := false, resumed := true }
  | pauseOp (s : PauseWaitState) : s.workerHasLock = false →
      pauseWaitStep s { s with paused := true }

/-- The state reached once the worker has observed `paused` inside its locked
pause check and entered the sleep/recheck loop. -/
def pauseDeadlockState : PauseWaitState :=
  { paused := true, workerHasLock := true, resumed := false }

lemma pauseWait_reach_fix (s : PauseWaitState)
    (h : Relation.ReflTransGen pauseWaitStep pauseDeadlockState s) :
    s = pauseDeadlockState := by
  induction h with
  | refl => rfl
  | tail hab hbc ih =>
    subst ih
    cases hbc <;> simp_all [pauseDeadlockState]

/-- C5 (refuting the bounded-wait claim on this code): once the worker has
observed the pause flag inside its locked pause check, every reachable
interleaving leaves the resume operation incomplete and the pause flag set —
the worker sleeps holding `job['lock']`, and `resume_job` blocks forever on
that same lock, so the job can never resume. -/
theorem C5_pause_wait_deadlock (s : PauseWaitState)
    (h : Relation.ReflTransGen pauseWaitStep pauseDeadlockState s) :
    s.resumed = false ∧ s.paused = true := by
  rw [pauseWait_reach_fix s h]
  exact ⟨rfl, rfl⟩

/-- Witness for C5 at the deadlock-entry state itself. -/
theorem C5_pause_wait_deadlock_witness :
    pauseDeadlockState.resumed = false ∧ pauseDeadlockState.paused = true :=
  C5_pause_wait_deadlock pauseDeadlockState Relation.ReflTransGen.refl

/-! ### The candidate source reader and the start route (C6, C7, C8) -/

/-- Python whitespace as recognised by `str.strip()`: ASCII whitespace plus
the common Unicode space characters. -/
def pyIsSpace (c : Char) : Bool :=
  c == ' ' || c == '\t' || c == '\n' || c == '\r' || c == '\x0b' || c == '\x0c' ||
  c == '\x1c' || c == '\x1d' || c == '\x1e' || c == '\x1f' || c == '\x85' ||
  c == '\u00A0' || c == '\u2007' || c == '\u2009' || c == '\u3000'

/-- Models Python `str.strip()` with no argument: remove leading and trailing
whitespace. -/
def pyStrip (s : String) : String :=
  ⟨((s.data.dropWhile pyIsSpace).reverse.dropWhile pyIsSpace).reverse⟩

/-- The line-break characters recognised by Python `str.splitlines()`. -/
def pyIsLineBreak (c : Char) : Bool :=
  c == '\n' || c == '\r' || c == '\x0b' || c == '\x0c' || c == '\x1c' ||
  c == '\x1d' || c == '\x1e' || c == '\x85' || c == '\u2028' || c == '\u2029'

/-- Accumulator pass of `str.splitlines()`: `\r\n` counts as one break, a
trailing break produces no empty final line. -/
def splitlinesGo : List Char → List Char → List String
  | [], acc => if acc.isEmpty then [] else [⟨acc.reverse⟩]
  | '\r' :: '\n' :: rest, acc => (⟨acc.reverse⟩ : String) :: splitlinesGo rest []
  | c :: rest, acc =>
    if pyIsLineBreak c then (⟨acc.reverse⟩ : String) :: splitlinesGo rest []
    else splitlinesGo rest (c :: acc)

/-- Models Python `str.splitlines()`. -/
def pySplitlines (s : String) : List String := splitlinesGo s.data []

/-- Models Python `str.endswith(suffix)`. -/
def pyEndsWith (s suffix : String) : Bool := List.isSuffixOf suffix.data s.data

/-- Whether a byte is a UTF-8 continuation byte (10xxxxxx). -/
def utf8Cont (b : Fin 256) : Bool := decide (0x80 ≤ b.val) && decide (b.val < 0xC0)

/-- Strict UTF-8 decoding of a byte list, as Python `bytes.decode("utf-8")`:
rejects bad lead bytes, truncated or malformed sequences, overlong encodings,
surrogates and code points beyond U+10FFFF. -/
def utf8DecodeGo : List (Fin 256) → List Char → Option (List Char)
  | [], acc => some acc.reverse
  | b :: rest, acc =>
    if b.val < 0x80 then utf8DecodeGo rest (Char.ofNat b.val :: acc)
    else if b.val < 0xC2 then none
    else if b.val < 0xE0 then
      match rest with
      | b1 :: rest1 =>
        if utf8Cont b1 then
          utf8DecodeGo rest1 (Char.ofNat ((b.val - 0xC0) * 0x40 + (b1.val - 0x80)) :: acc)
        else none
      | [] => none
    else if b.val < 0xF0 then
      match rest with
      | b1 :: b2 :: rest2 =>
        if ((if b.val = 0xE0 then decide (0xA0 ≤ b1.val) && decide (b1.val < 0xC0)
             else if b.val = 0xED then decide (0x80 ≤ b1.val) && decide (b1.val < 0xA0)
             else utf8Cont b1) && utf8Cont b2) = true then
          utf8DecodeGo rest2
            (Char.ofNat ((b.val - 0xE0) * 0x1000 + (b1.val - 0x80) * 0x40 + (b2.val - 0x80)) :: acc)
        else none
      | _ => none
    else if b.val < 0xF5 then
      match rest with
      | b1 :: b2 :: b3 :: rest3 =>
        if ((if b.val = 0xF0 then decide (0x90 ≤ b1.val) && decide (b1.val < 0xC0)
             else if b.val = 0xF4 then decide (0x80 ≤ b1.val) && decide (b1.val < 0x90)
             else utf8Cont b1) && utf8Cont b2 && utf8Cont b3) = true then
          utf8DecodeGo rest3
            (Char.ofNat ((b.val - 0xF0) * 0x40000 + (b1.val - 0x80) * 0x1000 +
              (b2.val - 0x80) * 0x40 + (b3.val - 0x80)) :: acc)
        else none
      | _ => none
    else none

/-- `bytes.decode("utf-8")` as an `Option`: `none` is the `UnicodeDecodeError`. -/
def utf8Decode? (bs : List (Fin 256)) : Option String :=
  (utf8DecodeGo bs []).map (fun cs => ⟨cs⟩)

/-- `bytes.decode("latin-1")`: total, each byte is its own code point. -/
def latin1Decode (bs : List (Fin 256)) : String :=
  ⟨bs.map (fun b => Char.ofNat b.val)⟩

/-- The decode pattern of `read_wordlist_from_file`: `raw.decode("utf-8")`
inside `try`, `raw.decode("latin-1")` on failure (lines 71-74, 100-103). -/
def decode_best_effort (raw : List (Fin 256)) : String :=
  match utf8Decode? raw with
  | some text => text
  | none => latin1Decode raw

/-- One entry of a zip archive as visible through `zipfile`: its name from
`namelist()` and its raw bytes, `none` when `z.open(...)`/`read()` raises
(a corrupt entry — the `except` path of lines 76-78). -/
structure ZipEntry where
  name : String
  data : Option (List (Fin 256))

/-- An uploaded candidate-source file, already classified by the filename
suffix dispatch of `read_wordlist_from_file` (lines 59 and 80): `.zip` files
appear as their `zipfile` entry list (the archive parser is an external
library), anything else as raw bytes handled by the plain-text branch.  The
`.gz` branch is not modelled: no claim depends on it. -/
inductive UploadedFile where
  | zipFile (entries : List ZipEntry)
  | textFile (bytes : List (Fin 256))

/-- The comprehension `[ln.strip() for ln in lines if ln and ln.strip()]`
closing every branch of `read_wordlist_from_file` (lines 79, 95, 106). -/
def strip_nonempty_lines (lines : List String) : List String :=
  (lines.filter (fun ln => !(ln == "") && !(pyStrip ln == ""))).map pyStrip

/-- `read_wordlist_from_file` (`src/app.py` lines 56-106) on the modelled
branches.  Zip branch (lines 59-79): walk `namelist()` in order, skip names
ending "/", decode each readable entry UTF-8-with-Latin-1-fallback, skip
entries whose read raises, extend `lines` with `text.splitlines()`, then
strip and drop empty lines.  Plain-text branch (lines 96-106): decode the
whole body the same way and split it. -/
def read_wordlist_from_file (f : UploadedFile) : List String :=
  match f with
  | .zipFile entries =>
    let lines := entries.foldl (fun acc e =>
      if pyEndsWith e.name "/" then acc
      else
        match e.data with
        | none => acc
        | some raw => acc ++ pySplitlines (decode_best_effort raw)) []
    strip_nonempty_lines lines
  | .textFile bytes =>
    strip_nonempty_lines (pySplitlines (decode_best_effort bytes))

/-- Models Python `int(s)` on the digits of an optionally signed decimal
string: `none` when empty or a non-digit appears (the `ValueError`). -/
def parseDecDigits (ds : List Char) : Option Nat :=
  if ds = [] then none
  else ds.foldl (fun acc c =>
    acc.bind (fun a => if c.isDigit then some (10 * a + (c.toNat - 48)) else none)) (some 0)

/-- Python `int(s)` for base 10 (underscore digit grouping not modelled). -/
def parsePyInt (s : String) : Option Int :=
  match s.data with
  | '-' :: ds => (parseDecDigits ds).map (fun n => -(n : Int))
  | '+' :: ds => (parseDecDigits ds).map (fun n => (n : Int))
  | ds => (parseDecDigits ds).map (fun n => (n : Int))

/-- The request surface read by `start_process` (`src/app.py` lines 186-215):
the four form fields (absent ↦ `none`), the optional file upload `wordlist`
and the optional form field `wordlistText`. -/
structure StartForm where
  hashedSeed : Option String
  clientSeed : Option String
  nonce : Option String
  speed : Option String
  wordlistFile : Option UploadedFile
  wordlistText : Option String

/-- Outcome of `start_process`: a 400 rejection carrying its message — no job
is created — or the stored queued job together with the wordlist and the
parameters handed to the worker thread. -/
inductive StartResult where
  | err400 (msg : String)
  | ok (job : Job) (wordlist_lines : List String) (nonce : Int) (max_speed : Int)
deriving DecidableEq

/-- `start_process` (`src/app.py` lines 186-237): strip the form fields
(`request.form.get(..., "").strip()`), reject 400 when a required field is
empty, when the nonce does not parse as an integer there is a dedicated 400;
the rate cap defaults to 20000 when empty or unparsable; the wordlist comes
from the file upload if present, else from the inline text (split and
stripped, empty lines dropped), else 400; finally the queued job is stored. -/
def start_process (form : StartForm) : StartResult :=
  let hashedSeed := pyStrip (form.hashedSeed.getD "")
  let clientSeed := pyStrip (form.clientSeed.getD "")
  let nonce_str := pyStrip (form.nonce.getD "")
  let speed_str := pyStrip (form.speed.getD "")
  if hashedSeed = "" ∨ clientSeed = "" ∨ nonce_str = "" then
    StartResult.err400 "missing required fields (hashedSeed, clientSeed, nonce)"
  else
    match parsePyInt nonce_str with
    | none => StartResult.err400 "nonce must be an integer"
    | some nonce =>
      let max_speed := if speed_str = "" then 20000 else (parsePyInt speed_str).getD 20000
      match form.wordlistFile with
      | some file =>
        let wordlist_lines := read_wordlist_from_file file
        StartResult.ok (initial_job wordlist_lines.length) wordlist_lines nonce max_speed
      | none =>
        match form.wordlistText with
        | some t =>
          let wordlist_lines :=
            ((pySplitlines t).filter (fun ln => !(pyStrip ln == ""))).map pyStrip
          StartResult.ok (initial_job wordlist_lines.length) wordlist_lines nonce max_speed
        | none => StartResult.err400 "no wordlist provided"

/- ### C8: the zip branch returns exactly the stripped non-empty lines -/

/-- The lines one zip entry contributes to the accumulated list. -/
def zip_entry_lines (e : ZipEntry) : List String :=
  if pyEndsWith e.name "/" then []
  else
    match e.data with
    | none => []
    | some raw => pySplitlines (decode_best_effort raw)

lemma zip_fold_eq (entries : List ZipEntry) :
    ∀ acc : List String,
      entries.foldl (fun acc e =>
        if pyEndsWith e.name "/" then acc
        else
          match e.data with
          | none => acc
          | some raw => acc ++ pySplitlines (decode_best_effort raw)) acc
      = acc ++ entries.flatMap zip_entry_lines := by
  induction entries with
  | nil => intro acc; simp
  | cons e rest ih =>
    intro acc
    simp only [List.foldl_cons, List.flatMap_cons]
    by_cases hdir : pyEndsWith e.name "/" = true
    · rw [if_pos hdir, ih]
      simp [zip_entry_lines, hdir]
    · rcases hdata : e.data with _ | raw
      · rw [if_neg hdir, ih]
        simp [zip_entry_lines, hdir, hdata]
      · rw [if_neg hdir, ih]
        simp [zip_entry_lines, hdir, hdata]

lemma zip_flatMap_filter (entries : List ZipEntry) :
    entries.flatMap zip_entry_lines
      = (entries.filter (fun e => !(pyEndsWith e.name "/") && e.data.isSome)).flatMap
          (fun e => pySplitlines (decode_best_effort (e.data.getD []))) := by
  induction entries with
  | nil => rfl
  | cons e rest ih =>
    simp only [List.flatMap_cons, List.filter_cons]
    by_cases hdir : pyEndsWith e.name "/" = true
    · simp [zip_entry_lines, hdir, ih]
    · rcases hdata : e.data with _ | raw
      · simp [zip_entry_lines, hdir, hdata, ih]
      · simp [zip_entry_lines, hdir, hdata, ih]

lemma pyStrip_empty : pyStrip "" = "" := rfl

lemma strip_nonempty_lines_eq (lines : List String) :
    strip_nonempty_lines lines = (lines.map pyStrip).filter (fun ln => !(ln == "")) := by
  induction lines with
  | nil => rfl
  | cons ln rest ih =>
    simp only [strip_nonempty_lines, List.filter_cons, List.map_cons] at *
    by_cases h : pyStrip ln = ""
    · have h1 : (!(ln == "") && !(pyStrip ln == "")) = false := by
        simp [h]
      have h2 : (!(pyStrip ln == "")) = false := by
        simp [h]
      rw [h1, h2]
      simp [ih]
    · have hln : ¬(ln = "") := by
        intro he
        subst he
        exact h pyStrip_empty
      have h1 : (!(ln == "") && !(pyStrip ln == "")) = true := by
        simp [h, hln]
      have h2 : (!(pyStrip ln == "")) = true := by
        simp [h]
      rw [h1, h2]
      simp [ih]

/-- Modelled from the spec (section 4.1, archive container; property §8.6):
the reader's result on an archive is exactly the stripped non-empty lines of
the readable non-directory entries, decoded UTF-8 with Latin-1 fallback, in
archive-listing order. -/
def spec_zip_read (entries : List ZipEntry) : List String :=
  (((entries.filter (fun e => !(pyEndsWith e.name "/") && e.data.isSome)).flatMap
      (fun e => pySplitlines (decode_best_effort (e.data.getD [])))).map pyStrip).filter
    (fun ln => !(ln == ""))

/-- C8: on every zip archive the reader walks entries in listing order, skips
directory entries and unreadable entries silently, decodes readable entries
as UTF-8 falling back to Latin-1, concatenates their lines, and returns
exactly the non-empty stripped lines in order — the spec-side description
`spec_zip_read`. -/
theorem C8_zip_reader (entries : List ZipEntry) :
    read_wordlist_from_file (UploadedFile.zipFile entries) = spec_zip_read entries := by
  show strip_nonempty_lines _ = _
  rw [zip_fold_eq entries [], List.nil_append, strip_nonempty_lines_eq,
    zip_flatMap_filter]
  rfl

/-- ASCII bytes of a string, for concrete archive examples. -/
def asciiBytes (s : String) : List (Fin 256) :=
  s.data.map (fun c => Fin.ofNat c.toNat)

/-- The spec's concrete archive scenario (§8.6): two text entries holding 3
and 4 non-empty lines (one blank line in each), one corrupt entry and one
directory entry among them; the reader returns exactly the 7 stripped lines
in archive-listing order. -/
theorem zip_archive_example :
    read_wordlist_from_file (UploadedFile.zipFile
      [⟨"one.txt", some (asciiBytes "alpha\nbeta\n\n gamma ")⟩,
       ⟨"bad.bin", none⟩,
       ⟨"sub/", some (asciiBytes "ignored")⟩,
       ⟨"two.txt", some (asciiBytes "d\r\ne\n\nf\ng\n")⟩])
      = ["alpha", "beta", "gamma", "d", "e", "f", "g"] := by
  rfl

/- ### C7: start-request validation -/

/-- C7: `start_process` rejects with a 400 error — and never creates a job —
whenever the target digest, client seed or nonce is missing (empty after
strip), the nonce does not parse as an integer, or neither a file upload nor
inline text is supplied. -/
theorem C7_validation (form : StartForm)
    (h : pyStrip (form.hashedSeed.getD "") = "" ∨ pyStrip (form.clientSeed.getD "") = "" ∨
         pyStrip (form.nonce.getD "") = "" ∨
         parsePyInt (pyStrip (form.nonce.getD "")) = none ∨
         (form.wordlistFile = none ∧ form.wordlistText = none)) :
    (∃ msg, start_process form = StartResult.err400 msg) ∧
    (∀ job lines nv ms, start_process form ≠ StartResult.ok job lines nv ms) := by
  have key : ∃ msg, start_process form = StartResult.err400 msg := by
    simp only [start_process]
    by_cases h1 : pyStrip (form.hashedSeed.getD "") = "" ∨
        pyStrip (form.clientSeed.getD "") = "" ∨ pyStrip (form.nonce.getD "") = ""
    · rw [if_pos h1]
      exact ⟨_, rfl⟩
    · rw [if_neg h1]
      rcases hp : parsePyInt (pyStrip (form.nonce.getD "")) with _ | nv
      · exact ⟨_, rfl⟩
      · have h5 : form.wordlistFile = none ∧ form.wordlistText = none := by
          rcases h with h | h | h | h | h
          · exact absurd (Or.inl h) h1
          · exact absurd (Or.inr (Or.inl h)) h1
          · exact absurd (Or.inr (Or.inr h)) h1
          · rw [h] at hp; cases hp
          · exact h
        rw [h5.1, h5.2]
        exact ⟨_, rfl⟩
  obtain ⟨msg, hmsg⟩ := key
  refine ⟨⟨msg, hmsg⟩, ?_⟩
  intro job lines nv ms hcontra
  rw [hmsg] at hcontra
  cases hcontra

/-- Witness for C7 at the empty request (all fields absent). -/
theorem C7_validation_witness :
    (∃ msg, start_process ⟨none, none, none, none, none, none⟩
      = StartResult.err400 msg) ∧
    (∀ job lines nv ms, start_process ⟨none, none, none, none, none, none⟩
      ≠ StartResult.ok job lines nv ms) :=
  C7_validation ⟨none, none, none, none, none, none⟩ (Or.inl (by decide))

/- ### C6: an empty candidate source is not an error in this code -/

/-- Counterexample to C6 as stated: an empty plain-text upload yields zero
candidate lines, yet the reader returns the empty sequence (its result type
has no error outcome at all) and `start_process` happily creates a queued job
with total 0 instead of failing. -/
theorem C6_counterexample :
    read_wordlist_from_file (UploadedFile.textFile []) = [] ∧
    start_process ⟨some "a", some "b", some "1", none,
        some (UploadedFile.textFile []), none⟩ =
      StartResult.ok (initial_job 0) [] 1 20000 :=
  ⟨rfl, rfl⟩

/-- C6 amended: when zero candidate lines can be extracted from the uploaded
candidate source, the read operation returns the empty sequence without any
error and `start_process` still creates a job, a queued one with total 0 —
there is no UnreadableSource failure in this code. -/
theorem C6_empty_source_creates_job (hs cs ns ss : Option String) (f : UploadedFile)
    (nv : Int)
    (h1 : ¬(pyStrip (hs.getD "") = "")) (h2 : ¬(pyStrip (cs.getD "") = ""))
    (h3 : parsePyInt (pyStrip (ns.getD "")) = some nv)
    (hempty : read_wordlist_from_file f = []) :
    start_process ⟨hs, cs, ns, ss, some f, none⟩ =
      StartResult.ok (initial_job 0) [] nv
        (if pyStrip (ss.getD "") = "" then 20000
         else (parsePyInt (pyStrip (ss.getD ""))).getD 20000) := by
  have hns : ¬(pyStrip (ns.getD "") = "") := by
    intro he
    rw [he] at h3
    cases h3
  simp only [start_process]
  rw [if_neg (by simp [h1, h2, hns]), h3, hempty]
  rfl

/-- Witness for the amended C6: valid fields, empty plain-text upload. -/
theorem C6_empty_source_creates_job_witness :
    start_process ⟨some "a", some "b", some "1", none,
        some (UploadedFile.textFile []), none⟩ =
      StartResult.ok (initial_job 0) [] 1
        (if pyStrip ((none : Option String).getD "") = "" then 20000
         else (parsePyInt (pyStrip ((none : Option String).getD ""))).getD 20000) :=
  C6_empty_source_creates_job (some "a") (some "b") (some "1") none
    (UploadedFile.textFile []) 1 (by decide) (by decide) (by decide) rfl

end DiceCrack
